import Mathlib

/-!
Shallow embedding of the streaming transfer engine of `src/utils/mongo-client.ts`
(class `MongoClient`): index normalization, the 500-document batching loop,
and the four transfer instantiations (cloneDb, cloneDbToClient, exportDb,
importDb) together with the connection-state checks.

JavaScript strings that undergo suffix manipulation (file names) are modelled
as `List Char`; field values of index descriptors are modelled by `FVal`.
-/

set_option autoImplicit false

namespace MongoTools

/-- Field values that can occur in an index descriptor object
(numbers such as the version tag, strings such as name or namespace,
booleans such as unique or sparse, and a key pattern object). -/
inductive FVal where
  | fnum (n : Int)
  | fbool (b : Bool)
  | fstr (s : String)
  | fkeys (ks : List (String × Int))
deriving DecidableEq, Repr

/-- An index descriptor: a JavaScript object, i.e. an ordered list of
(field name, value) pairs with distinct names. -/
abbrev IndexDescriptor := List (String × FVal)

/-- JavaScript property access `idx[k]`: first field with the given name. -/
def lookupField (d : IndexDescriptor) (k : String) : Option FVal :=
  (d.find? (fun kv => kv.1 == k)).map (fun kv => kv.2)

/-- The test `idx.name === "_id_"` used (negated) by every index filter in the source. -/
def isIdIndex (d : IndexDescriptor) : Bool :=
  lookupField d "name" == some (.fstr "_id_")

/-- The destructuring `\x7b v: _v, ns: _ns, ...rest \x7d`: every own field
except `v` and `ns`, in original order. -/
def stripVNs (d : IndexDescriptor) : IndexDescriptor :=
  d.filter (fun kv => kv.1 != "v" && kv.1 != "ns")

/-- `indexes.filter((idx) => idx.name !== "_id_").map((\x7bv, ns, ...rest\x7d) => rest)`
as used by cloneDb (lines 81-83), cloneDbToClient (lines 121-123) and
importDb (lines 208-210). -/
def userIndexes (raws : List IndexDescriptor) : List IndexDescriptor :=
  (raws.filter (fun idx => !(isIdIndex idx))).map stripVNs

/-- The `if (userIndexes.length > 0) createIndexes(userIndexes)` step: the list
of createIndexes invocations (zero or one) made for one collection. -/
def createIndexCalls (raws : List IndexDescriptor) : List (List IndexDescriptor) :=
  let ui := userIndexes raws
  if ui.isEmpty then [] else [ui]

/-! ## The batching loop -/

/-- `const BATCH_SIZE = 500` (line 10). -/
def BATCH_SIZE : Nat := 500

/-- The document loop shared by cloneDb (lines 68-78), cloneDbToClient
(lines 106-118) and importDb (lines 189-203): push each document onto the
batch, flush (bulk insert) whenever the batch reaches `cap`, and flush the
final partial batch when non-empty.  Returns the list of flushed batches in
order. -/
def batchLoop {α : Type} (cap : Nat) (batch : List α) : List α → List (List α)
  | [] => if batch.length > 0 then [batch] else []
  | d :: ds =>
      let b := batch ++ [d]
      if cap ≤ b.length then b :: batchLoop cap [] ds
      else batchLoop cap b ds

/-- The flush events produced for a full document sequence (initial batch empty). -/
def flushes {α : Type} (cap : Nat) (docs : List α) : List (List α) :=
  batchLoop cap [] docs

/-- Reference chunking function: split a list into consecutive runs of `cap`. -/
def chunks {α : Type} (cap : Nat) : List α → List (List α)
  | [] => []
  | a :: l => (a :: l.take (cap - 1)) :: chunks cap (l.drop (cap - 1))
termination_by l => l.length
decreasing_by simp [List.length_drop]; omega

abbrev JsStr := List Char

/-- The literal `".jsonl"` used by exportDb (line 151) and importDb (lines 177, 182). -/
def jsonlSfx : JsStr := ".jsonl".data

/-- The literal `".indexes.json"` used by exportDb (line 163) and importDb (line 205). -/
def indexesSfx : JsStr := ".indexes.json".data

/-- `file.replace(/\.jsonl$/, "")` (line 182): remove a final ".jsonl" if present. -/
def stripJsonl (f : JsStr) : JsStr :=
  if jsonlSfx.isSuffixOf f then f.take (f.length - jsonlSfx.length) else f

/-- A source collection as seen over the wire: its name, its documents in
cursor order, and its raw index descriptors. -/
structure Collection (α : Type) where
  name : JsStr
  docs : List α
  indexes : List IndexDescriptor
deriving DecidableEq

/-- The observable per-collection write effects of one transfer: the ordered
insertMany batches and the createIndexes invocations. -/
structure CollectionTransfer (α : Type) where
  name : JsStr
  flushes : List (List α)
  createdIndexes : List (List IndexDescriptor)
deriving DecidableEq

/-- Number of documents the code counts for one collection: the sum of
`batch.length` over the insertMany calls (`totalDocuments += batch.length`). -/
def docSum {α : Type} (t : CollectionTransfer α) : Nat :=
  (t.flushes.map List.length).sum

/-- The value resolved by each transfer method: cloneDb resolves to nothing
(`Promise<void>`), cloneDbToClient and importDb to an ImportResult, exportDb
to an ExportResult carrying the output path. -/
inductive TransferReturn where
  | voidRet
  | counts (collections documents : Nat)
  | countsPath (collections documents : Nat) (path : JsStr)
deriving DecidableEq, Repr

/-- Whether a transfer return value carries the collections/documents aggregate. -/
def carriesAggregate : TransferReturn → Bool
  | .voidRet => false
  | .counts _ _ => true
  | .countsPath _ _ _ => true

/-- Content of a file written or read by export/import: a ".jsonl" record
file is a list of lines, a ".indexes.json" sidecar is a JSON array of
descriptors. -/
inductive FileData where
  | lines (ls : List JsStr)
  | jsonIndexes (descs : List IndexDescriptor)
deriving DecidableEq

/-- A directory: file names with contents, in the order seen by readdirSync
(modelled as write order). -/
abbrev Directory := List (JsStr × FileData)

/-- `readFileSync`/`existsSync` by file name: first entry with that name. -/
def dirLookup (dir : Directory) (f : JsStr) : Option FileData :=
  (dir.find? (fun e => e.1 == f)).map (fun e => e.2)

/-- Error taxonomy: `NotConnected` ("Not connected to a cluster.", line 26),
`ConnectionError` (rejected `client.connect()`), `SourceNotFound`
("Directory not found", line 174), and a transfer-aborting failure for any
read/parse error mid-transfer. -/
inductive MErr where
  | notConnected
  | connectionError
  | sourceNotFound
  | transferFailure
deriving DecidableEq, Repr

/-! ## Transfer operations (connection-independent cores) -/

/-- One collection of cloneDb (lines 63-87) and cloneDbToClient (lines
101-127): stream documents through the batching loop, then create the
filtered and stripped user indexes when non-empty. -/
def cloneCollection {α : Type} (c : Collection α) : CollectionTransfer α :=
  { name := c.name
    flushes := flushes BATCH_SIZE c.docs
    createdIndexes := createIndexCalls c.indexes }

/-- `cloneDb` (lines 54-88): per-collection effects; resolves to void. -/
def cloneDb {α : Type} (db : List (Collection α)) :
    List (CollectionTransfer α) × TransferReturn :=
  (db.map cloneCollection, .voidRet)

/-- `cloneDbToClient` (lines 90-130): same effects, returns
collections = number of listed collections and documents = sum of inserted
batch sizes. -/
def cloneDbToClient {α : Type} (db : List (Collection α)) :
    List (CollectionTransfer α) × TransferReturn :=
  let ts := db.map cloneCollection
  (ts, .counts db.length ((ts.map docSum).sum))

/-- The two files exportDb writes for one collection (lines 151-163): the
record file with one encoded document per line, and the sidecar holding the
raw descriptors minus the implicit one (no field stripping here). -/
def exportCollectionFiles {α : Type} (encode : α → JsStr) (c : Collection α) :
    List (JsStr × FileData) :=
  [ (c.name ++ jsonlSfx, .lines (c.docs.map encode)),
    (c.name ++ indexesSfx, .jsonIndexes (c.indexes.filter (fun i => !(isIdIndex i)))) ]

/-- `exportDb` (lines 136-167): the directory written and the ExportResult. -/
def exportDb {α : Type} (encode : α → JsStr) (db : List (Collection α))
    (outDir : JsStr) : Directory × TransferReturn :=
  ((db.map (exportCollectionFiles encode)).flatten,
   .countsPath db.length ((db.map (fun c => c.docs.length)).sum) outDir)

/-- `line.trim()` of the readline loop (line 191). -/
def trimChars (l : JsStr) : JsStr :=
  ((l.dropWhile Char.isWhitespace).reverse.dropWhile Char.isWhitespace).reverse

/-- The line loop of importDb (lines 190-193): trim, skip blank lines,
parse each remaining line; a malformed line aborts the transfer. -/
def parseRecords {α : Type} (decode : JsStr → Option α) (ls : List JsStr) :
    Except MErr (List α) :=
  ((ls.map trimChars).filter (fun t => !t.isEmpty)).mapM
    (fun t => match decode t with
      | some d => Except.ok d
      | none => Except.error MErr.transferFailure)

/-- The sidecar step of importDb (lines 205-214): skip when absent,
otherwise parse, filter out the implicit index, strip v/ns, and create
when non-empty.  A sidecar that is not a JSON descriptor array aborts. -/
def readSidecar (dir : Directory) (colName : JsStr) :
    Except MErr (List (List IndexDescriptor)) :=
  match dirLookup dir (colName ++ indexesSfx) with
  | none => .ok []
  | some (.jsonIndexes raws) => .ok (createIndexCalls raws)
  | some (.lines _) => .error .transferFailure

/-- One file of importDb (lines 180-215): derive the collection name,
stream the record file, then handle the sidecar. -/
def importCollection {α : Type} (decode : JsStr → Option α) (dir : Directory)
    (file : JsStr) : Except MErr (CollectionTransfer α) :=
  match dirLookup dir file with
  | some (.lines ls) =>
      match parseRecords decode ls with
      | .error e => .error e
      | .ok docs =>
          match readSidecar dir (stripJsonl file) with
          | .error e => .error e
          | .ok created =>
              .ok { name := stripJsonl file
                    flushes := flushes BATCH_SIZE docs
                    createdIndexes := created }
  | some (.jsonIndexes _) => .error .transferFailure
  | none => .error .transferFailure

/-- The body of importDb after its checks (lines 177-217): the collection
set is the files ending in ".jsonl"; returns collections = number of such
files and documents = sum of inserted batch sizes. -/
def importFiles {α : Type} (decode : JsStr → Option α) (dir : Directory) :
    Except MErr (List (CollectionTransfer α) × TransferReturn) :=
  match ((dir.map (fun e => e.1)).filter
      (fun f => jsonlSfx.isSuffixOf f)).mapM (importCollection decode dir) with
  | .error e => .error e
  | .ok ts =>
      .ok (ts, .counts
        ((dir.map (fun e => e.1)).filter (fun f => jsonlSfx.isSuffixOf f)).length
        ((ts.map docSum).sum))

/-! ## Connection state -/

/-- The native driver client created by `connect` (line 16), with the fixed
server-selection timeout and whether its own connect attempt succeeded. -/
structure NativeHandle where
  uri : JsStr
  timeoutMS : Nat
  connectOk : Bool
deriving DecidableEq, Repr

/-- The wrapper state: `private client: NativeClient | null = null` (line 13). -/
structure MongoClientSt where
  client : Option NativeHandle
deriving DecidableEq, Repr

/-- `connect` (lines 15-18): the field is assigned BEFORE the connect
attempt is awaited, so it stays assigned even when the attempt fails;
`succeeds` is the environment-determined outcome of the native connect. -/
def connect (_st : MongoClientSt) (uri : JsStr) (succeeds : Bool) :
    MongoClientSt × Except MErr Unit :=
  ({ client := some { uri := uri, timeoutMS := 8000, connectOk := succeeds } },
   if succeeds then .ok () else .error .connectionError)

/-- `disconnect` (lines 20-23): always resets the field. -/
def disconnect (_st : MongoClientSt) : MongoClientSt × Except MErr Unit :=
  ({ client := none }, .ok ())

/-- The private `db` getter (lines 25-28): throws when the field is null. -/
def dbGet (st : MongoClientSt) : Except MErr NativeHandle :=
  match st.client with
  | none => .error .notConnected
  | some h => .ok h

/-- `SYSTEM_DBS = ["admin", "local", "config"]` from config/constants. -/
def SYSTEM_DBS : List JsStr := ["admin".data, "local".data, "config".data]

/-- `listCollections` result entries: collection name and countDocuments. -/
structure CollectionInfo where
  name : JsStr
  count : Nat
deriving DecidableEq, Repr

/-- `getDbStats` result (lines 48-52). -/
structure DbStats where
  name : JsStr
  collections : List CollectionInfo
  totalDocuments : Nat
deriving DecidableEq, Repr

/-- `listDatabases` (lines 30-35) given the admin listing of the cluster. -/
def listDatabasesOp (st : MongoClientSt) (dbs : List (JsStr × Nat)) :
    Except MErr (List (JsStr × Nat)) :=
  match dbGet st with
  | .error e => .error e
  | .ok _ =>
      .ok ((dbs.filter (fun d => !(SYSTEM_DBS.contains d.1))).map
        (fun d => (d.1, d.2)))

/-- The connection-independent core of `listCollections` (lines 37-46). -/
def listCollectionsCore {α : Type} (db : List (Collection α)) : List CollectionInfo :=
  db.map (fun c => { name := c.name, count := c.docs.length })

def listCollectionsOp {α : Type} (st : MongoClientSt) (db : List (Collection α)) :
    Except MErr (List CollectionInfo) :=
  match dbGet st with
  | .error e => .error e
  | .ok _ => .ok (listCollectionsCore db)

/-- The connection-independent core of `getDbStats` (lines 48-52):
totalDocuments is the reduce-with-plus over the per-collection counts. -/
def getDbStatsCore {α : Type} (dbName : JsStr) (db : List (Collection α)) : DbStats :=
  let collections := listCollectionsCore db
  { name := dbName
    collections := collections
    totalDocuments := collections.foldl (fun sum c => sum + c.count) 0 }

def getDbStatsOp {α : Type} (st : MongoClientSt) (dbName : JsStr)
    (db : List (Collection α)) : Except MErr DbStats :=
  match dbGet st with
  | .error e => .error e
  | .ok _ => .ok (getDbStatsCore dbName db)

def cloneDbOp {α : Type} (st : MongoClientSt) (db : List (Collection α)) :
    Except MErr (List (CollectionTransfer α) × TransferReturn) :=
  match dbGet st with
  | .error e => .error e
  | .ok _ => .ok (cloneDb db)

/-- `cloneDbToClient` reads `this.db` (line 96) before `targetClient.db` (line 97). -/
def cloneDbToClientOp {α : Type} (st tgtSt : MongoClientSt)
    (db : List (Collection α)) :
    Except MErr (List (CollectionTransfer α) × TransferReturn) :=
  match dbGet st with
  | .error e => .error e
  | .ok _ =>
      match dbGet tgtSt with
      | .error e => .error e
      | .ok _ => .ok (cloneDbToClient db)

def dropDbOp (st : MongoClientSt) (_dbName : JsStr) : Except MErr Unit :=
  match dbGet st with
  | .error e => .error e
  | .ok _ => .ok ()

/-- `exportDb` (lines 136-167): `mkdirSync` precedes the connection check
but cannot fail with recursive:true; then the db getter runs. -/
def exportDbOp {α : Type} (st : MongoClientSt) (encode : α → JsStr)
    (db : List (Collection α)) (outDir : JsStr) :
    Except MErr (Directory × TransferReturn) :=
  match dbGet st with
  | .error e => .error e
  | .ok _ => .ok (exportDb encode db outDir)

/-- `importDb` (lines 169-218): the `existsSync(inDir)` check (line 174)
runs BEFORE the `this.db` getter (line 176); a missing directory is
modelled as `none`. -/
def importDbOp {α : Type} (st : MongoClientSt) (decode : JsStr → Option α)
    (dirOpt : Option Directory) :
    Except MErr (List (CollectionTransfer α) × TransferReturn) :=
  match dirOpt with
  | none => .error .sourceNotFound
  | some dir =>
      match dbGet st with
      | .error e => .error e
      | .ok _ => importFiles decode dir

/-! ## Sample data and claim-level predicates -/

/-- The implicit identifier index as the server reports it. -/
def implicitIdx : IndexDescriptor :=
  [("v", .fnum 2), ("name", .fstr "_id_"), ("key", .fkeys [("_id", 1)])]

/-- A raw named unique index as the server reports it (with v and ns). -/
def uniqueIdx : IndexDescriptor :=
  [("v", .fnum 2), ("ns", .fstr "db1.users"), ("name", .fstr "email_1"),
   ("key", .fkeys [("email", 1)]), ("unique", .fbool true)]

/-- The unique index after v/ns stripping. -/
def uniqueIdxStripped : IndexDescriptor :=
  [("name", .fstr "email_1"), ("key", .fkeys [("email", 1)]), ("unique", .fbool true)]

/-- Sample collection with two documents and both sample indexes. -/
def usersCol : Collection Nat :=
  { name := "users".data, docs := [0, 1], indexes := [implicitIdx, uniqueIdx] }

/-- Sample empty collection. -/
def postsCol : Collection Nat :=
  { name := "posts".data, docs := [], indexes := [] }

/-- Sample two-collection database. -/
def sampleDb : List (Collection Nat) := [usersCol, postsCol]

/-- Database with collections of 10 and 5 documents (the getStats example). -/
def twoColDb : List (Collection Nat) :=
  [ { name := "users".data, docs := List.range 10, indexes := [] },
    { name := "posts".data, docs := List.range 5, indexes := [] } ]

/-- A collection with 1001 documents (the 500/500/1 flush example). -/
def bigCol : Collection Nat :=
  { name := "big".data, docs := List.range 1001, indexes := [] }

/-- Sample record encoder used to instantiate the file codec. -/
def encodeNat (n : Nat) : JsStr := List.replicate (n + 1) 'x'

/-- Sample record decoder, inverse to `encodeNat`. -/
def decodeNat (l : JsStr) : Option Nat :=
  if l.isEmpty then none else some (l.length - 1)

/-- The flush-event shape claimed for a collection of D documents: ceil(D/500)
flushes, all of size 500 except a final partial one, none empty, none above
capacity. -/
def FlushP {α : Type} (F : List (List α)) (D : Nat) : Prop :=
  F.length = (D + (BATCH_SIZE - 1)) / BATCH_SIZE
  ∧ (∀ i, i + 1 < F.length → (F.getD i []).length = BATCH_SIZE)
  ∧ (F.getD (F.length - 1) []).length = D - BATCH_SIZE * (F.length - 1)
  ∧ ∀ b ∈ F, 0 < b.length ∧ b.length ≤ BATCH_SIZE

/-- Sample directory: one record file plus its sidecar. -/
def demoDir : Directory :=
  [ ("users".data ++ jsonlSfx, .lines [encodeNat 0, encodeNat 1]),
    ("users".data ++ indexesSfx, .jsonIndexes [uniqueIdx]) ]

/-! ## Lemmas and claim theorems -/

theorem chunks_nil {α : Type} (cap : Nat) : chunks (α := α) cap [] = [] := by
  simp [chunks]

theorem chunks_ne_nil {α : Type} (cap : Nat) (l : List α) (hl : l ≠ []) :
    chunks cap l ≠ [] := by
  cases l with
  | nil => exact absurd rfl hl
  | cons a t => simp [chunks]

theorem chunks_cons_eq {α : Type} (cap : Nat) (hc : 0 < cap) (l : List α) (hl : l ≠ []) :
    chunks cap l = l.take cap :: chunks cap (l.drop cap) := by
  obtain ⟨c, rfl⟩ : ∃ c, cap = c + 1 := ⟨cap - 1, (Nat.succ_pred_eq_of_pos hc).symm⟩
  cases l with
  | nil => exact absurd rfl hl
  | cons a t => simp [chunks]

theorem batchLoop_eq_chunks {α : Type} (cap : Nat) (hc : 0 < cap) :
    ∀ (docs batch : List α), batch.length < cap →
      batchLoop cap batch docs = chunks cap (batch ++ docs) := by
  intro docs
  induction docs with
  | nil =>
      intro batch hb
      cases hB : batch with
      | nil => simp [batchLoop, chunks]
      | cons a t =>
          subst hB
          have : chunks cap (a :: t) = ((a :: t).take cap) :: chunks cap ((a :: t).drop cap) :=
            chunks_cons_eq cap hc _ (by simp)
          rw [List.append_nil, this]
          have htake : (a :: t).take cap = a :: t :=
            List.take_of_length_le (Nat.le_of_lt hb)
          have hdrop : (a :: t).drop cap = [] :=
            List.drop_eq_nil_of_le (Nat.le_of_lt hb)
          simp [batchLoop, htake, hdrop, chunks]
  | cons d ds ih =>
      intro batch hb
      by_cases hfull : cap ≤ (batch ++ [d]).length
      · have hlen : (batch ++ [d]).length = cap := by
          simp only [List.length_append, List.length_cons, List.length_nil] at hfull ⊢
          omega
        have hne : batch ++ d :: ds ≠ [] := by simp
        rw [show (batchLoop cap batch (d :: ds)) =
              (batch ++ [d]) :: batchLoop cap [] ds by
            simp only [batchLoop]; rw [if_pos hfull]]
        rw [ih [] hc, chunks_cons_eq cap hc _ hne]
        have hsplit : batch ++ d :: ds = (batch ++ [d]) ++ ds := by simp
        rw [hsplit]
        congr 1
        · rw [← hlen, List.take_left]
        · rw [← hlen, List.drop_left]
          simp
      · have hlt : (batch ++ [d]).length < cap := Nat.lt_of_not_le hfull
        rw [show (batchLoop cap batch (d :: ds)) =
              batchLoop cap (batch ++ [d]) ds by
            simp only [batchLoop]; rw [if_neg hfull]]
        rw [ih (batch ++ [d]) hlt]
        simp

theorem flushes_eq_chunks {α : Type} (cap : Nat) (hc : 0 < cap) (docs : List α) :
    flushes cap docs = chunks cap docs := by
  have := batchLoop_eq_chunks cap hc docs [] (by simpa using hc)
  simpa [flushes] using this

theorem chunks_mem_length_aux {α : Type} (cap : Nat) (hc : 0 < cap) :
    ∀ (n : Nat) (l : List α), l.length ≤ n →
      ∀ b ∈ chunks cap l, 0 < b.length ∧ b.length ≤ cap := by
  intro n
  induction n with
  | zero =>
      intro l hl b hb
      rw [List.length_eq_zero.mp (Nat.le_zero.mp hl)] at hb
      simp [chunks] at hb
  | succ n ih =>
      intro l hl b hb
      cases l with
      | nil => simp [chunks] at hb
      | cons a t =>
          rw [show chunks cap (a :: t) =
                (a :: t.take (cap - 1)) :: chunks cap (t.drop (cap - 1)) by
              simp [chunks]] at hb
          rcases List.mem_cons.mp hb with h | h
          · subst h
            refine ⟨by simp, ?_⟩
            simp only [List.length_cons, List.length_take]
            omega
          · exact ih (t.drop (cap - 1))
              (by simp only [List.length_drop]; simp at hl; omega) b h

/-- Every chunk is non-empty and no larger than the capacity. -/
theorem chunks_mem_length {α : Type} (cap : Nat) (hc : 0 < cap) (l : List α) :
    ∀ b ∈ chunks cap l, 0 < b.length ∧ b.length ≤ cap :=
  chunks_mem_length_aux cap hc l.length l (Nat.le_refl _)

theorem chunks_flatten_aux {α : Type} (cap : Nat) :
    ∀ (n : Nat) (l : List α), l.length ≤ n → (chunks cap l).flatten = l := by
  intro n
  induction n with
  | zero =>
      intro l hl
      rw [List.length_eq_zero.mp (Nat.le_zero.mp hl)]
      simp [chunks]
  | succ n ih =>
      intro l hl
      cases l with
      | nil => simp [chunks]
      | cons a t =>
          rw [show chunks cap (a :: t) =
                (a :: t.take (cap - 1)) :: chunks cap (t.drop (cap - 1)) by
              simp [chunks]]
          rw [List.flatten_cons,
            ih (t.drop (cap - 1))
              (by simp only [List.length_drop]; simp at hl; omega)]
          simp

/-- Concatenating the chunks recovers the original list. -/
theorem chunks_flatten {α : Type} (cap : Nat) (l : List α) :
    (chunks cap l).flatten = l :=
  chunks_flatten_aux cap l.length l (Nat.le_refl _)

theorem chunks_length_aux {α : Type} (cap : Nat) (hc : 0 < cap) :
    ∀ (n : Nat) (l : List α), l.length ≤ n →
      (chunks cap l).length = (l.length + (cap - 1)) / cap := by
  intro n
  induction n with
  | zero =>
      intro l hl
      rw [List.length_eq_zero.mp (Nat.le_zero.mp hl)]
      simp only [chunks, List.length_nil]
      rw [Nat.div_eq_of_lt (by omega)]
  | succ n ih =>
      intro l hl
      cases l with
      | nil =>
          simp only [chunks, List.length_nil]
          rw [Nat.div_eq_of_lt (by omega)]
      | cons a t =>
          rw [show chunks cap (a :: t) =
                (a :: t.take (cap - 1)) :: chunks cap (t.drop (cap - 1)) by
              simp [chunks]]
          rw [List.length_cons,
            ih (t.drop (cap - 1))
              (by simp only [List.length_drop]; simp at hl; omega)]
          simp only [List.length_drop, List.length_cons]
          have h2 : t.length + 1 + (cap - 1) = t.length + cap := by omega
          rw [h2, Nat.add_div_right _ hc]
          rcases Nat.lt_or_ge t.length (cap - 1) with hlt | hle
          · have h1 : t.length - (cap - 1) = 0 := by omega
            rw [h1, Nat.zero_add,
              Nat.div_eq_of_lt (show cap - 1 < cap by omega),
              Nat.div_eq_of_lt (show t.length < cap by omega)]
          · have h1 : t.length - (cap - 1) + (cap - 1) = t.length := by omega
            rw [h1]

/-- The number of chunks is the ceiling of length over capacity. -/
theorem chunks_length {α : Type} (cap : Nat) (hc : 0 < cap) (l : List α) :
    (chunks cap l).length = (l.length + (cap - 1)) / cap :=
  chunks_length_aux cap hc l.length l (Nat.le_refl _)

theorem chunks_getD_length_aux {α : Type} (cap : Nat) (hc : 0 < cap) :
    ∀ (n : Nat) (l : List α), l.length ≤ n →
      ∀ (i : Nat), i + 1 < (chunks cap l).length →
        ((chunks cap l).getD i []).length = cap := by
  intro n
  induction n with
  | zero =>
      intro l hl i hi
      rw [List.length_eq_zero.mp (Nat.le_zero.mp hl)] at hi
      simp [chunks] at hi
  | succ n ih =>
      intro l hl i hi
      cases l with
      | nil => simp [chunks] at hi
      | cons a t =>
          rw [show chunks cap (a :: t) =
                (a :: t.take (cap - 1)) :: chunks cap (t.drop (cap - 1)) by
              simp [chunks]] at hi ⊢
          cases i with
          | zero =>
              have hrest : chunks cap (t.drop (cap - 1)) ≠ [] := by
                simp only [List.length_cons] at hi
                intro hemp
                rw [hemp] at hi
                simp at hi
              have hdropne : t.drop (cap - 1) ≠ [] := by
                intro h
                exact hrest (by rw [h, chunks_nil])
              have hlen : cap - 1 < t.length := by
                by_contra hcon
                exact hdropne (List.drop_eq_nil_of_le (Nat.le_of_not_lt hcon))
              simp only [List.getD_cons_zero, List.length_cons, List.length_take]
              omega
          | succ j =>
              simp only [List.getD_cons_succ]
              exact ih (t.drop (cap - 1))
                (by simp only [List.length_drop]; simp at hl; omega) j
                (by simpa using hi)

/-- Every chunk except possibly the last has length exactly `cap`. -/
theorem chunks_getD_length {α : Type} (cap : Nat) (hc : 0 < cap) (l : List α) (i : Nat)
    (hi : i + 1 < (chunks cap l).length) :
    ((chunks cap l).getD i []).length = cap :=
  chunks_getD_length_aux cap hc l.length l (Nat.le_refl _) i hi

theorem chunks_last_length_aux {α : Type} (cap : Nat) (hc : 0 < cap) :
    ∀ (n : Nat) (l : List α), l.length ≤ n → l ≠ [] →
      ((chunks cap l).getD ((chunks cap l).length - 1) []).length
        = l.length - cap * ((chunks cap l).length - 1) := by
  intro n
  induction n with
  | zero =>
      intro l hl hne
      exact absurd (List.length_eq_zero.mp (Nat.le_zero.mp hl)) hne
  | succ n ih =>
      intro l hl hne
      rw [chunks_cons_eq cap hc l hne]
      by_cases hdrop : l.drop cap = []
      · have hle : l.length ≤ cap := by
          have := congrArg List.length hdrop
          simp only [List.length_drop, List.length_nil] at this
          omega
        rw [hdrop, chunks_nil]
        simp only [List.length_cons, List.length_nil, Nat.zero_add, Nat.sub_self,
          List.getD_cons_zero, List.length_take, Nat.mul_zero]
        omega
      · have hrest : chunks cap (l.drop cap) ≠ [] := chunks_ne_nil cap _ hdrop
        have hlen : cap < l.length := by
          by_contra hcon
          exact hdrop (List.drop_eq_nil_of_le (Nat.le_of_not_lt hcon))
        have ihd := ih (l.drop cap)
          (by simp only [List.length_drop]; omega) hdrop
        obtain ⟨r, rs, hr⟩ : ∃ r rs, chunks cap (l.drop cap) = r :: rs :=
          List.exists_cons_of_ne_nil hrest
        rw [hr] at ihd ⊢
        simp only [List.length_cons, List.length_drop, Nat.add_sub_cancel] at ihd ⊢
        rw [List.getD_cons_succ]
        rw [ihd]
        have h2 : cap * (rs.length + 1) = cap * rs.length + cap := by
          rw [Nat.mul_add, Nat.mul_one]
        rw [h2]
        omega

/-- The last chunk has length `l.length - cap * (number of chunks - 1)`. -/
theorem chunks_last_length {α : Type} (cap : Nat) (hc : 0 < cap) (l : List α)
    (hne : l ≠ []) :
    ((chunks cap l).getD ((chunks cap l).length - 1) []).length
      = l.length - cap * ((chunks cap l).length - 1) :=
  chunks_last_length_aux cap hc l.length l (Nat.le_refl _) hne

/-! ## File names

JavaScript strings (file and collection names) are modelled as lists of
characters so that the suffix tests of importDb are provable. -/

theorem jsonl_suffix_append (a : JsStr) : jsonlSfx.isSuffixOf (a ++ jsonlSfx) = true := by
  simp [List.isSuffixOf_iff_suffix]

theorem getLast?_append_jsonl (a : JsStr) : (a ++ jsonlSfx).getLast? = some 'l' := by
  rw [List.getLast?_append]
  rfl

theorem getLast?_append_indexes (a : JsStr) : (a ++ indexesSfx).getLast? = some 'n' := by
  rw [List.getLast?_append]
  rfl

/-- A record-file name never coincides with a sidecar name. -/
theorem jsonl_ne_indexes (a b : JsStr) : a ++ jsonlSfx ≠ b ++ indexesSfx := by
  intro h
  have hlast := congrArg List.getLast? h
  rw [getLast?_append_jsonl, getLast?_append_indexes] at hlast
  simp at hlast

/-- A sidecar name does not end in ".jsonl". -/
theorem indexes_not_jsonl (b : JsStr) : jsonlSfx.isSuffixOf (b ++ indexesSfx) = false := by
  by_contra h
  have hsfx : jsonlSfx <:+ b ++ indexesSfx := by
    rw [← List.isSuffixOf_iff_suffix]
    revert h
    cases jsonlSfx.isSuffixOf (b ++ indexesSfx) <;> simp
  obtain ⟨t, ht⟩ := hsfx
  exact jsonl_ne_indexes t b ht

theorem stripJsonl_append (a : JsStr) : stripJsonl (a ++ jsonlSfx) = a := by
  rw [stripJsonl, if_pos (jsonl_suffix_append a)]
  have hlen : (a ++ jsonlSfx).length - jsonlSfx.length = a.length := by
    simp [List.length_append]
  rw [hlen, List.take_left]

theorem stripJsonl_restore (f : JsStr) (h : jsonlSfx.isSuffixOf f = true) :
    stripJsonl f ++ jsonlSfx = f := by
  have hsfx : jsonlSfx <:+ f := by
    rw [← List.isSuffixOf_iff_suffix]
    exact h
  obtain ⟨t, rfl⟩ := hsfx
  rw [stripJsonl_append]

/-! ## Data model -/

/-! ## Supporting lemmas on the operations -/

theorem flushes_flatten {α : Type} (cap : Nat) (hc : 0 < cap) (docs : List α) :
    (flushes cap docs).flatten = docs := by
  rw [flushes_eq_chunks cap hc]
  exact chunks_flatten cap docs

/-- The document count accumulated over insertMany calls equals the number
of source documents. -/
theorem flushes_length_sum {α : Type} (docs : List α) :
    ((flushes BATCH_SIZE docs).map List.length).sum = docs.length := by
  rw [← List.length_flatten, flushes_flatten BATCH_SIZE (by decide) docs]

theorem docSum_cloneCollection {α : Type} (c : Collection α) :
    docSum (cloneCollection c) = c.docs.length := by
  simp [docSum, cloneCollection, flushes_length_sum]

/-- The flush events of a non-empty document stream have the claimed shape. -/
theorem flushes_spec {α : Type} (docs : List α) (hD : 0 < docs.length) :
    FlushP (flushes BATCH_SIZE docs) docs.length := by
  have hc : (0 : Nat) < BATCH_SIZE := by decide
  have hne : docs ≠ [] := by
    cases docs with
    | nil => simp at hD
    | cons a t => simp
  rw [FlushP, flushes_eq_chunks BATCH_SIZE hc]
  exact ⟨chunks_length BATCH_SIZE hc docs,
    fun i hi => chunks_getD_length BATCH_SIZE hc docs i hi,
    chunks_last_length BATCH_SIZE hc docs hne,
    chunks_mem_length BATCH_SIZE hc docs⟩

theorem exceptMapM_ok_of_forall {α β γ : Type} (f : α → Except γ β) (g : α → β) :
    ∀ xs : List α, (∀ x ∈ xs, f x = .ok (g x)) → xs.mapM f = .ok (xs.map g) := by
  intro xs
  induction xs with
  | nil => intro _; rfl
  | cons a t ih =>
      intro h
      rw [List.mapM_cons, h a (by simp), ih (fun x hx => h x (by simp [hx]))]
      rfl

theorem exceptMapM_forall₂ {α β γ : Type} (f : α → Except γ β) :
    ∀ (xs : List α) (ys : List β), xs.mapM f = .ok ys →
      List.Forall₂ (fun x y => f x = .ok y) xs ys := by
  intro xs
  induction xs with
  | nil =>
      intro ys h
      rw [List.mapM_nil] at h
      cases h
      exact List.Forall₂.nil
  | cons a t ih =>
      intro ys h
      rw [List.mapM_cons] at h
      cases hfa : f a with
      | error e => rw [hfa] at h; cases h
      | ok b =>
          rw [hfa] at h
          cases hft : t.mapM f with
          | error e =>
              rw [hft] at h
              cases h
          | ok bs =>
              rw [hft] at h
              cases h
              exact List.Forall₂.cons hfa (ih bs hft)

theorem exceptMapM_congr {α β γ : Type} (f g : α → Except γ β) :
    ∀ (xs : List α), (∀ x ∈ xs, f x = g x) → xs.mapM f = xs.mapM g := by
  intro xs
  induction xs with
  | nil => intro _; rfl
  | cons a t ih =>
      intro h
      rw [List.mapM_cons, List.mapM_cons, h a (by simp),
        ih (fun x hx => h x (by simp [hx]))]

/-- A successful importCollection streams some parsed document list through
the batching loop, and counts exactly those documents. -/
theorem importCollection_ok {α : Type} (decode : JsStr → Option α)
    (dir : Directory) (file : JsStr) (t : CollectionTransfer α)
    (h : importCollection decode dir file = .ok t) :
    ∃ docs : List α, t.flushes = flushes BATCH_SIZE docs
      ∧ docSum t = docs.length ∧ t.name = stripJsonl file := by
  rw [importCollection] at h
  cases hl : dirLookup dir file with
  | none => rw [hl] at h; cases h
  | some fd =>
      rw [hl] at h
      cases fd with
      | jsonIndexes descs => cases h
      | lines ls =>
          dsimp only at h
          cases hp : parseRecords decode ls with
          | error e => rw [hp] at h; cases h
          | ok docs =>
              rw [hp] at h
              cases hs : readSidecar dir (stripJsonl file) with
              | error e => rw [hs] at h; cases h
              | ok created =>
                  rw [hs] at h
                  cases h
                  exact ⟨docs, rfl, by simp [docSum, flushes_length_sum], rfl⟩

theorem foldl_add_count (cs : List CollectionInfo) :
    ∀ a : Nat, cs.foldl (fun sum c => sum + c.count) a
      = a + (cs.map (fun c => c.count)).sum := by
  induction cs with
  | nil => intro a; simp
  | cons c t ih =>
      intro a
      rw [List.foldl_cons, ih (a + c.count)]
      simp [Nat.add_assoc]

/-! ## Claim theorems -/

/-- Claim C3 counterexample: a failed connect leaves the client field
assigned (the assignment on line 16 precedes the awaited connect on line
17), so a subsequent data operation does NOT fail with NotConnected — here
listDatabases succeeds instead of erroring. -/
theorem c3_counterexample :
    (connect { client := none } "mongodb://u".data false).2
        = Except.error MErr.connectionError
    ∧ (connect { client := none } "mongodb://u".data false).1.client
        = some { uri := "mongodb://u".data, timeoutMS := 8000, connectOk := false }
    ∧ listDatabasesOp (connect { client := none } "mongodb://u".data false).1 []
        = Except.ok [] :=
  ⟨rfl, rfl, rfl⟩

/-- Claim C3 (amended): a failed connect raises ConnectionError, but the
client field remains assigned to the never-connected handle, so the
connection-state check of a subsequent data operation passes instead of
failing with NotConnected. -/
theorem c3_failed_connect_state (st : MongoClientSt) (uri : JsStr) :
    (connect st uri false).2 = Except.error MErr.connectionError
    ∧ (connect st uri false).1.client
        = some { uri := uri, timeoutMS := 8000, connectOk := false }
    ∧ dbGet (connect st uri false).1
        = Except.ok { uri := uri, timeoutMS := 8000, connectOk := false } :=
  ⟨rfl, rfl, rfl⟩

/-- Claim C4 counterexample: cloneDb resolves to void — its return value
carries no collections/documents aggregate. -/
theorem c4_counterexample :
    (cloneDb sampleDb).2 = TransferReturn.voidRet
    ∧ carriesAggregate (cloneDb sampleDb).2 = false :=
  ⟨rfl, rfl⟩

/-- Claim C4 (amended): cloneDbToClient, exportDb and importDb return the
collections/documents aggregate (export additionally the output path), the
document total being the number of source documents; cloneDb alone returns
nothing. -/
theorem c4_transfer_returns :
    (∀ (α : Type) (db : List (Collection α)),
      (cloneDb db).2 = TransferReturn.voidRet
      ∧ (cloneDbToClient db).2
          = TransferReturn.counts db.length ((db.map (fun c => c.docs.length)).sum))
    ∧ (∀ (α : Type) (encode : α → JsStr) (db : List (Collection α)) (outDir : JsStr),
      (exportDb encode db outDir).2
        = TransferReturn.countsPath db.length
            ((db.map (fun c => c.docs.length)).sum) outDir)
    ∧ (∀ (α : Type) (decode : JsStr → Option α) (dir : Directory)
        (out : List (CollectionTransfer α) × TransferReturn),
      importFiles decode dir = Except.ok out →
        out.2 = TransferReturn.counts out.1.length ((out.1.map docSum).sum)) := by
  refine ⟨?_, ?_, ?_⟩
  · intro α db
    refine ⟨rfl, ?_⟩
    rw [cloneDbToClient]
    simp only [List.map_map]
    congr 1
    congr 1
    apply List.map_congr_left
    intro c _
    exact docSum_cloneCollection c
  · intro α encode db outDir
    rfl
  · intro α decode dir out h
    rw [importFiles] at h
    cases hm : ((dir.map (fun e => e.1)).filter
        (fun f => jsonlSfx.isSuffixOf f)).mapM (importCollection decode dir) with
    | error e => rw [hm] at h; cases h
    | ok ts =>
        rw [hm] at h
        cases h
        have hlen := (exceptMapM_forall₂ _ _ _ hm).length_eq
        simp only [← hlen]

/-- Claim C4 witness instance. -/
theorem c4_witness :
    (cloneDbToClient sampleDb).2 = TransferReturn.counts 2 2 := by
  have h := (c4_transfer_returns.1 Nat sampleDb).2
  rw [h]
  rfl

/-- Claim C7: importDb on a missing source directory fails with
SourceNotFound regardless of the connection state and of the file codec —
the existence check on line 174 runs before anything else. -/
theorem c7_missing_source (α : Type) (st : MongoClientSt)
    (decode : JsStr → Option α) :
    importDbOp st decode none = Except.error MErr.sourceNotFound :=
  rfl

/-- Claim C8 counterexample: importDb invoked while Disconnected on a
nonexistent directory fails with SourceNotFound, not NotConnected — the
directory check precedes the connection check. -/
theorem c8_counterexample :
    importDbOp { client := none } (fun _ => (none : Option Nat)) none
        = Except.error MErr.sourceNotFound
    ∧ (Except.error MErr.sourceNotFound
        ≠ (Except.error MErr.notConnected :
            Except MErr (List (CollectionTransfer Nat) × TransferReturn))) :=
  ⟨rfl, by intro h; exact absurd (Except.error.inj h) (by decide)⟩

/-- Claim C8 (amended): every data operation invoked while Disconnected
fails rather than no-ops — with NotConnected in every case except importDb
on a nonexistent source directory, which fails with SourceNotFound. -/
theorem c8_disconnected_ops :
    (∀ dbs, listDatabasesOp { client := none } dbs
        = Except.error MErr.notConnected)
    ∧ (∀ (α : Type) (db : List (Collection α)),
        listCollectionsOp { client := none } db = Except.error MErr.notConnected)
    ∧ (∀ (α : Type) (dbName : JsStr) (db : List (Collection α)),
        getDbStatsOp { client := none } dbName db = Except.error MErr.notConnected)
    ∧ (∀ (α : Type) (db : List (Collection α)),
        cloneDbOp { client := none } db = Except.error MErr.notConnected)
    ∧ (∀ (α : Type) (tgtSt : MongoClientSt) (db : List (Collection α)),
        cloneDbToClientOp { client := none } tgtSt db
          = Except.error MErr.notConnected)
    ∧ (∀ dbName, dropDbOp { client := none } dbName
        = Except.error MErr.notConnected)
    ∧ (∀ (α : Type) (encode : α → JsStr) (db : List (Collection α)) (outDir : JsStr),
        exportDbOp { client := none } encode db outDir
          = Except.error MErr.notConnected)
    ∧ (∀ (α : Type) (decode : JsStr → Option α) (dir : Directory),
        importDbOp { client := none } decode (some dir)
          = Except.error MErr.notConnected)
    ∧ (∀ (α : Type) (decode : JsStr → Option α),
        importDbOp { client := none } decode none
          = Except.error MErr.sourceNotFound) :=
  ⟨fun _ => rfl, fun _ _ => rfl, fun _ _ _ => rfl, fun _ _ => rfl,
   fun _ _ _ => rfl, fun _ => rfl, fun _ _ _ _ => rfl, fun _ _ _ => rfl,
   fun _ _ => rfl⟩

/-- Claim C9: getDbStats lists one entry per collection and totals the
per-collection counts; on the 10-and-5 example it returns 15 over a
2-element list. -/
theorem c9_getDbStats :
    (∀ (α : Type) (dbName : JsStr) (db : List (Collection α)),
      (getDbStatsCore dbName db).collections.length = db.length
      ∧ (getDbStatsCore dbName db).collections
          = db.map (fun c => { name := c.name, count := c.docs.length })
      ∧ (getDbStatsCore dbName db).totalDocuments
          = (((getDbStatsCore dbName db).collections).map
              (fun ci => ci.count)).sum)
    ∧ (getDbStatsCore "db1".data twoColDb).totalDocuments = 15
    ∧ (getDbStatsCore "db1".data twoColDb).collections.length = 2 := by
  refine ⟨?_, by decide, by decide⟩
  intro α dbName db
  refine ⟨by simp [getDbStatsCore, listCollectionsCore], rfl, ?_⟩
  rw [getDbStatsCore]
  simp only
  rw [foldl_add_count]
  simp

/-! ## Lookup behaviour of the index codec -/

theorem lookupField_stripVNs_v (d : IndexDescriptor) :
    lookupField (stripVNs d) "v" = none := by
  rw [lookupField]
  have h : (stripVNs d).find? (fun kv => kv.1 == "v") = none := by
    rw [List.find?_eq_none]
    intro kv hkv
    have hmem := List.mem_filter.mp hkv
    have hpred := hmem.2
    simp only [Bool.and_eq_true, bne_iff_ne] at hpred
    simp [hpred.1]
  rw [h]
  rfl

theorem lookupField_stripVNs_ns (d : IndexDescriptor) :
    lookupField (stripVNs d) "ns" = none := by
  rw [lookupField]
  have h : (stripVNs d).find? (fun kv => kv.1 == "ns") = none := by
    rw [List.find?_eq_none]
    intro kv hkv
    have hmem := List.mem_filter.mp hkv
    have hpred := hmem.2
    simp only [Bool.and_eq_true, bne_iff_ne] at hpred
    simp [hpred.2]
  rw [h]
  rfl

theorem lookupField_stripVNs (d : IndexDescriptor) (k : String)
    (hv : k ≠ "v") (hn : k ≠ "ns") :
    lookupField (stripVNs d) k = lookupField d k := by
  induction d with
  | nil => rfl
  | cons kv rest ih =>
      by_cases hpred : (kv.1 != "v" && kv.1 != "ns") = true
      · rw [stripVNs, List.filter_cons, if_pos hpred]
        by_cases hkvk : (kv.1 == k) = true
        · simp only [lookupField, List.find?, hkvk]
        · have hkvk' : (kv.1 == k) = false := by
            cases hb : (kv.1 == k) with
            | false => rfl
            | true => exact absurd hb hkvk
          simp only [lookupField, List.find?, hkvk']
          exact ih
      · have hvn : kv.1 = "v" ∨ kv.1 = "ns" := by
          by_cases h1 : kv.1 = "v"
          · exact Or.inl h1
          · by_cases h2 : kv.1 = "ns"
            · exact Or.inr h2
            · exact absurd (by simp [h1, h2]) hpred
        have hkvk : (kv.1 == k) = false := by
          rcases hvn with h | h <;> rw [h] <;> simp only [beq_eq_false_iff_ne, ne_eq]
          · intro hk
            exact hv hk.symm
          · intro hk
            exact hn hk.symm
        rw [stripVNs, List.filter_cons, if_neg hpred]
        conv_rhs => rw [lookupField]
        conv_rhs => rw [List.find?]
        rw [hkvk]
        exact ih

/-- Claim C5: the replicated index set corresponds one-to-one with the raw
set minus the implicit index; each replicated descriptor has no v and no ns
but agrees with its raw source on every other field; on the implicit-plus-
unique example the result is exactly the stripped unique descriptor. -/
theorem c5_index_replication :
    (∀ raws : List IndexDescriptor,
      List.Forall₂ (fun d r =>
          lookupField d "v" = none ∧ lookupField d "ns" = none
          ∧ ∀ k : String, k ≠ "v" → k ≠ "ns" → lookupField d k = lookupField r k)
        (userIndexes raws) (raws.filter (fun i => !(isIdIndex i))))
    ∧ userIndexes [implicitIdx, uniqueIdx] = [uniqueIdxStripped]
    ∧ lookupField uniqueIdxStripped "unique" = some (FVal.fbool true)
    ∧ lookupField uniqueIdxStripped "v" = none
    ∧ lookupField uniqueIdxStripped "ns" = none := by
  refine ⟨?_, rfl, rfl, rfl, rfl⟩
  intro raws
  rw [userIndexes, List.forall₂_map_left_iff, List.forall₂_same]
  intro r _
  exact ⟨lookupField_stripVNs_v r, lookupField_stripVNs_ns r,
    fun k hv hn => lookupField_stripVNs r k hv hn⟩

/-- Claim C5 witness instance: the stripped descriptor agrees with the raw
unique descriptor on the "unique" field. -/
theorem c5_witness :
    lookupField (stripVNs uniqueIdx) "unique" = lookupField uniqueIdx "unique" := by
  have h := c5_index_replication.1 [implicitIdx, uniqueIdx]
  have he : List.filter (fun i => !(isIdIndex i)) [implicitIdx, uniqueIdx]
      = [uniqueIdx] := rfl
  have hu : userIndexes [implicitIdx, uniqueIdx] = [stripVNs uniqueIdx] := rfl
  rw [he, hu] at h
  cases h with
  | cons hr _ => exact hr.2.2 "unique" (by decide) (by decide)

/-- Claim C1 counterexample: the sidecar exportDb writes keeps the v and ns
fields — the descriptor stored for the sample collection still carries
v = 2 and the namespace string, so the claim that the format-version and
namespace fields are removed fails. -/
theorem c1_counterexample :
    dirLookup (exportDb encodeNat sampleDb "out".data).1 ("users".data ++ indexesSfx)
      = some (FileData.jsonIndexes [uniqueIdx])
    ∧ lookupField uniqueIdx "v" = some (FVal.fnum 2)
    ∧ lookupField uniqueIdx "ns" = some (FVal.fstr "db1.users") := by
  refine ⟨?_, rfl, rfl⟩
  rfl

/-- Claim C1 (amended): the sidecar file of every exported collection holds
the raw index descriptors with the implicit identifier index excluded, but
verbatim otherwise — the v and ns fields are NOT removed at export time
(they are stripped only when the sidecar is read back during import). -/
theorem c1_export_sidecar (α : Type) (encode : α → JsStr)
    (db : List (Collection α)) (outDir : JsStr) (c : Collection α)
    (hc : c ∈ db) :
    (c.name ++ indexesSfx,
        FileData.jsonIndexes (c.indexes.filter (fun i => !(isIdIndex i))))
      ∈ (exportDb encode db outDir).1
    ∧ ∀ d ∈ c.indexes.filter (fun i => !(isIdIndex i)),
        d ∈ c.indexes ∧ isIdIndex d = false := by
  constructor
  · rw [exportDb]
    simp only
    rw [List.mem_flatten]
    refine ⟨exportCollectionFiles encode c, List.mem_map_of_mem _ hc, ?_⟩
    rw [exportCollectionFiles]
    simp
  · intro d hd
    have hm := List.mem_filter.mp hd
    refine ⟨hm.1, ?_⟩
    have := hm.2
    simp only [Bool.not_eq_true'] at this
    exact this

/-- Claim C1 witness instance. -/
theorem c1_witness :
    (usersCol.name ++ indexesSfx,
        FileData.jsonIndexes (usersCol.indexes.filter (fun i => !(isIdIndex i))))
      ∈ (exportDb encodeNat sampleDb "out".data).1 :=
  (c1_export_sidecar Nat encodeNat sampleDb "out".data usersCol
    (by simp [sampleDb])).1

/-- Claim C2: for every collection moved by cloneDb or cloneDbToClient the
flush events are the batching loop over its documents and, when non-empty,
have the claimed count and sizes; the import loop likewise flushes some
parsed document stream with the same shape. -/
theorem c2_flush_events :
    (∀ (α : Type) (c : Collection α),
      (cloneCollection c).flushes = flushes BATCH_SIZE c.docs
      ∧ (0 < c.docs.length → FlushP ((cloneCollection c).flushes) c.docs.length))
    ∧ (∀ (α : Type) (db : List (Collection α)),
      (cloneDb db).1 = db.map cloneCollection
      ∧ (cloneDbToClient db).1 = db.map cloneCollection)
    ∧ (∀ (α : Type) (decode : JsStr → Option α) (dir : Directory) (file : JsStr)
        (t : CollectionTransfer α),
      importCollection decode dir file = Except.ok t →
        0 < docSum t → FlushP t.flushes (docSum t)) := by
  refine ⟨?_, ?_, ?_⟩
  · intro α c
    refine ⟨rfl, fun hD => ?_⟩
    rw [cloneCollection]
    exact flushes_spec c.docs hD
  · intro α db
    exact ⟨rfl, rfl⟩
  · intro α decode dir file t hok hD
    obtain ⟨docs, hfl, hsum, _⟩ := importCollection_ok decode dir file t hok
    rw [hfl, hsum]
    rw [hsum] at hD
    exact flushes_spec docs hD

/-- Claim C2 witness instance: 1001 documents flush as 500, 500, 1. -/
theorem c2_witness :
    FlushP ((cloneCollection bigCol).flushes) bigCol.docs.length :=
  (c2_flush_events.1 Nat bigCol).2 (by simp [bigCol])

/-! ## Directory lookup lemmas and claim C10 -/

/-- Appending entries does not change the lookup of a name already present. -/
theorem dirLookup_append_of_mem (dir tail : Directory) (f : JsStr)
    (hmem : f ∈ dir.map (fun e => e.1)) :
    dirLookup (dir ++ tail) f = dirLookup dir f := by
  rw [dirLookup, dirLookup, List.find?_append]
  obtain ⟨e, he, hef⟩ := List.mem_map.mp hmem
  have hsome : (dir.find? (fun e => e.1 == f)).isSome :=
    List.find?_isSome.mpr ⟨e, he, by simp [hef]⟩
  obtain ⟨s, hs⟩ := Option.isSome_iff_exists.mp hsome
  rw [hs]
  rfl

/-- Appending an orphan sidecar does not change the lookup of a different
collection's sidecar name. -/
theorem dirLookup_append_sidecar_ne (dir : Directory) (x colName : JsStr)
    (fd : FileData) (hne : x ≠ colName) :
    dirLookup (dir ++ [(x ++ indexesSfx, fd)]) (colName ++ indexesSfx)
      = dirLookup dir (colName ++ indexesSfx) := by
  rw [dirLookup, dirLookup, List.find?_append]
  cases hs : dir.find? (fun e => e.1 == colName ++ indexesSfx) with
  | some s => rfl
  | none =>
      have hbeq : ((x ++ indexesSfx) == (colName ++ indexesSfx)) = false := by
        rw [beq_eq_false_iff_ne]
        intro he
        exact hne (List.append_inj_left' he rfl)
      simp [List.find?, hbeq]

theorem readSidecar_append_orphan (dir : Directory) (x colName : JsStr)
    (fd : FileData) (hne : x ≠ colName) :
    readSidecar (dir ++ [(x ++ indexesSfx, fd)]) colName = readSidecar dir colName := by
  rw [readSidecar, readSidecar, dirLookup_append_sidecar_ne dir x colName fd hne]

/-- Appending an orphan sidecar whose collection has no record file does not
change the import of any record file of the directory. -/
theorem importCollection_append_orphan {α : Type} (decode : JsStr → Option α)
    (dir : Directory) (x : JsStr) (fd : FileData) (f : JsStr)
    (hmem : f ∈ dir.map (fun e => e.1)) (hjs : jsonlSfx.isSuffixOf f = true)
    (hx : (x ++ jsonlSfx) ∉ dir.map (fun e => e.1)) :
    importCollection (α := α) decode (dir ++ [(x ++ indexesSfx, fd)]) f
      = importCollection decode dir f := by
  have hne : x ≠ stripJsonl f := by
    intro he
    apply hx
    rw [he, stripJsonl_restore f hjs]
    exact hmem
  rw [importCollection, importCollection,
    dirLookup_append_of_mem dir [(x ++ indexesSfx, fd)] f hmem,
    readSidecar_append_orphan dir x (stripJsonl f) fd hne]

theorem forall₂_map_eq {α β γ : Type} {R : α → β → Prop} {f : α → γ} {g : β → γ}
    (h : ∀ a b, R a b → g b = f a) :
    ∀ {xs : List α} {ys : List β}, List.Forall₂ R xs ys → ys.map g = xs.map f := by
  intro xs ys h2
  induction h2 with
  | nil => rfl
  | cons hr _ ih => simp [h _ _ hr, ih]

/-- Claim C10: the imported collection set comes solely from the ".jsonl"
files (collection name = file name minus the suffix) and the returned
collection count is the number of such files; appending a sidecar whose
collection has no record file changes nothing — no documents, no indexes,
no count. -/
theorem c10_import_collection_set :
    (∀ (α : Type) (decode : JsStr → Option α) (dir : Directory)
        (out : List (CollectionTransfer α) × TransferReturn),
      importFiles decode dir = Except.ok out →
        out.1.map (fun t => t.name)
            = ((dir.map (fun e => e.1)).filter
                (fun f => jsonlSfx.isSuffixOf f)).map stripJsonl
        ∧ out.2 = TransferReturn.counts
            ((dir.map (fun e => e.1)).filter
              (fun f => jsonlSfx.isSuffixOf f)).length
            ((out.1.map docSum).sum))
    ∧ (∀ (α : Type) (decode : JsStr → Option α) (dir : Directory)
        (x : JsStr) (fd : FileData),
      (x ++ jsonlSfx) ∉ dir.map (fun e => e.1) →
        importFiles (α := α) decode (dir ++ [(x ++ indexesSfx, fd)])
          = importFiles decode dir) := by
  constructor
  · intro α decode dir out h
    rw [importFiles] at h
    cases hm : ((dir.map (fun e => e.1)).filter
        (fun f => jsonlSfx.isSuffixOf f)).mapM (importCollection decode dir) with
    | error e => rw [hm] at h; cases h
    | ok ts =>
        rw [hm] at h
        cases h
        have hfa := exceptMapM_forall₂ _ _ _ hm
        constructor
        · refine forall₂_map_eq (fun f t ht => ?_) hfa
          obtain ⟨docs, _, _, hname⟩ := importCollection_ok decode dir f t ht
          exact hname
        · rfl
  · intro α decode dir x fd hx
    have hfiles : (((dir ++ [(x ++ indexesSfx, fd)]).map (fun e => e.1)).filter
        (fun f => jsonlSfx.isSuffixOf f))
        = (dir.map (fun e => e.1)).filter (fun f => jsonlSfx.isSuffixOf f) := by
      rw [List.map_append, List.filter_append]
      simp [List.filter, indexes_not_jsonl x]
    rw [importFiles, importFiles, hfiles,
      exceptMapM_congr _ _ _
        (fun f hf => importCollection_append_orphan decode dir x fd f
          (List.mem_filter.mp hf).1 (List.mem_filter.mp hf).2 hx)]

/-- Claim C10 witness instance: an orphan "ghost" sidecar leaves the import
of the sample directory unchanged. -/
theorem c10_witness :
    importFiles (α := Nat) decodeNat
        (demoDir ++ [("ghost".data ++ indexesSfx, FileData.jsonIndexes [uniqueIdx])])
      = importFiles decodeNat demoDir :=
  c10_import_collection_set.2 Nat decodeNat demoDir "ghost".data
    (FileData.jsonIndexes [uniqueIdx]) (by decide)

/-! ## Round trip: exportDb then importDb (claim C6) -/

theorem export_dir_cons {α : Type} (encode : α → JsStr) (outDir : JsStr)
    (c0 : Collection α) (rest : List (Collection α)) :
    (exportDb encode (c0 :: rest) outDir).1
      = (c0.name ++ jsonlSfx, .lines (c0.docs.map encode))
        :: (c0.name ++ indexesSfx,
            .jsonIndexes (c0.indexes.filter (fun i => !(isIdIndex i))))
        :: (exportDb encode rest outDir).1 := by
  simp [exportDb, exportCollectionFiles]

/-- The record files of an export are exactly one ".jsonl" file per
collection, in listing order. -/
theorem export_files_names {α : Type} (encode : α → JsStr) (outDir : JsStr) :
    ∀ db : List (Collection α),
      (((exportDb encode db outDir).1.map (fun e => e.1)).filter
          (fun f => jsonlSfx.isSuffixOf f))
        = db.map (fun c => c.name ++ jsonlSfx) := by
  intro db
  induction db with
  | nil => rfl
  | cons c0 rest ih =>
      rw [export_dir_cons]
      simp [jsonl_suffix_append, indexes_not_jsonl, ih]

/-- Looking up a collection's record file or sidecar in the export output
finds exactly what exportDb wrote for it, provided collection names are
unique. -/
theorem export_lookup {α : Type} (encode : α → JsStr) (outDir : JsStr) :
    ∀ (db : List (Collection α)) (c : Collection α), c ∈ db →
      (db.map (fun c => c.name)).Nodup →
      dirLookup (exportDb encode db outDir).1 (c.name ++ jsonlSfx)
          = some (.lines (c.docs.map encode))
      ∧ dirLookup (exportDb encode db outDir).1 (c.name ++ indexesSfx)
          = some (.jsonIndexes (c.indexes.filter (fun i => !(isIdIndex i)))) := by
  intro db
  induction db with
  | nil => intro c hc _; simp at hc
  | cons c0 rest ih =>
      intro c hc hnd
      simp only [List.map_cons, List.nodup_cons] at hnd
      rcases List.mem_cons.mp hc with rfl | hmem
      · constructor
        · rw [export_dir_cons]
          simp [dirLookup, List.find?]
        · have h1 : ((c.name ++ jsonlSfx) == (c.name ++ indexesSfx)) = false :=
            beq_eq_false_iff_ne.mpr (jsonl_ne_indexes c.name c.name)
          rw [export_dir_cons]
          simp [dirLookup, List.find?, h1]
      · have hne : c.name ≠ c0.name := by
          intro he
          exact hnd.1 (he ▸ List.mem_map_of_mem (fun c => c.name) hmem)
        have h1 : ((c0.name ++ jsonlSfx) == (c.name ++ jsonlSfx)) = false :=
          beq_eq_false_iff_ne.mpr
            (fun he => hne (List.append_inj_left' he rfl).symm)
        have h2 : ((c0.name ++ indexesSfx) == (c.name ++ jsonlSfx)) = false :=
          beq_eq_false_iff_ne.mpr
            (fun he => jsonl_ne_indexes c.name c0.name he.symm)
        have h3 : ((c0.name ++ jsonlSfx) == (c.name ++ indexesSfx)) = false :=
          beq_eq_false_iff_ne.mpr (jsonl_ne_indexes c0.name c.name)
        have h4 : ((c0.name ++ indexesSfx) == (c.name ++ indexesSfx)) = false :=
          beq_eq_false_iff_ne.mpr
            (fun he => hne (List.append_inj_left' he rfl).symm)
        have hrec := ih c hmem hnd.2
        rw [export_dir_cons]
        constructor
        · have hg := hrec.1
          rw [dirLookup] at hg ⊢
          simp only [List.find?, h1, h2]
          exact hg
        · have hg := hrec.2
          rw [dirLookup] at hg ⊢
          simp only [List.find?, h3, h4]
          exact hg

/-- Parsing back an encoded record file recovers the documents, provided
each encoded line survives trimming and decodes to its document. -/
theorem parseRecords_encode {α : Type} (decode : JsStr → Option α)
    (encode : α → JsStr) :
    ∀ docs : List α,
      (∀ d ∈ docs, trimChars (encode d) ≠ []
        ∧ decode (trimChars (encode d)) = some d) →
      parseRecords decode (docs.map encode) = .ok docs := by
  intro docs
  induction docs with
  | nil => intro _; rfl
  | cons d ds ih =>
      intro h
      have hd := h d (by simp)
      have hne : (trimChars (encode d)).isEmpty = false := by
        cases htc : trimChars (encode d) with
        | nil => exact absurd htc hd.1
        | cons a t => rfl
      rw [parseRecords] at ih ⊢
      simp only [List.map_cons, List.filter_cons, hne, Bool.not_false, if_true]
      rw [List.mapM_cons, hd.2]
      rw [ih (fun x hx => h x (by simp [hx]))]
      rfl

theorem exceptMapM_map_ok {α β γ δ : Type} (f : γ → Except δ β) (h : α → γ)
    (g : α → β) :
    ∀ xs : List α, (∀ x ∈ xs, f (h x) = .ok (g x)) →
      (xs.map h).mapM f = .ok (xs.map g) := by
  intro xs
  induction xs with
  | nil => intro _; rfl
  | cons a t ih =>
      intro hall
      rw [List.map_cons, List.mapM_cons, hall a (by simp),
        ih (fun x hx => hall x (by simp [hx]))]
      rfl

/-- Filtering out the implicit index twice is the same as once, so the
indexes created from an exported sidecar equal those of a direct clone. -/
theorem userIndexes_filter_id (raws : List IndexDescriptor) :
    userIndexes (raws.filter (fun i => !(isIdIndex i))) = userIndexes raws := by
  rw [userIndexes, userIndexes, List.filter_filter]
  congr 1
  apply List.filter_congr
  intro a _
  simp

theorem createIndexCalls_filter_id (raws : List IndexDescriptor) :
    createIndexCalls (raws.filter (fun i => !(isIdIndex i)))
      = createIndexCalls raws := by
  rw [createIndexCalls, createIndexCalls, userIndexes_filter_id]

/-- Importing a collection's record file from the export output reproduces
the original documents through the batching loop and recreates exactly the
normalized source indexes. -/
theorem importCollection_export {α : Type} (encode : α → JsStr)
    (decode : JsStr → Option α) (outDir : JsStr) (db : List (Collection α))
    (c : Collection α) (hc : c ∈ db)
    (hnd : (db.map (fun c => c.name)).Nodup)
    (hrt : ∀ d ∈ c.docs, trimChars (encode d) ≠ []
        ∧ decode (trimChars (encode d)) = some d) :
    importCollection decode (exportDb encode db outDir).1 (c.name ++ jsonlSfx)
      = .ok { name := c.name
              flushes := flushes BATCH_SIZE c.docs
              createdIndexes := createIndexCalls c.indexes } := by
  have hlk := export_lookup encode outDir db c hc hnd
  rw [importCollection, hlk.1]
  dsimp only
  rw [parseRecords_encode decode encode c.docs hrt]
  dsimp only
  rw [stripJsonl_append, readSidecar, hlk.2]
  dsimp only
  rw [createIndexCalls_filter_id]

/-- Claim C6: exporting a database and importing the result into an empty
target reproduces the same total document count and recreates exactly the
normalized (non-implicit, v/ns-stripped) index set of every source
collection; the returned aggregates of export and import agree. -/
theorem c6_roundtrip (α : Type) (h : NativeHandle) (encode : α → JsStr)
    (decode : JsStr → Option α) (db : List (Collection α)) (outDir : JsStr)
    (hnodup : (db.map (fun c => c.name)).Nodup)
    (hrt : ∀ c ∈ db, ∀ d ∈ c.docs, trimChars (encode d) ≠ []
        ∧ decode (trimChars (encode d)) = some d) :
    importDbOp { client := some h } decode (some (exportDb encode db outDir).1)
      = Except.ok
          (db.map (fun c =>
            { name := c.name
              flushes := flushes BATCH_SIZE c.docs
              createdIndexes := createIndexCalls c.indexes }),
           TransferReturn.counts db.length
             ((db.map (fun c => c.docs.length)).sum))
    ∧ (exportDb encode db outDir).2
      = TransferReturn.countsPath db.length
          ((db.map (fun c => c.docs.length)).sum) outDir := by
  refine ⟨?_, rfl⟩
  show importFiles decode (exportDb encode db outDir).1 = _
  rw [importFiles, export_files_names encode outDir db]
  rw [exceptMapM_map_ok (importCollection decode (exportDb encode db outDir).1)
    (fun c => c.name ++ jsonlSfx)
    (fun c => { name := c.name
                flushes := flushes BATCH_SIZE c.docs
                createdIndexes := createIndexCalls c.indexes })
    db
    (fun c hc => importCollection_export encode decode outDir db c hc hnodup
      (hrt c hc))]
  dsimp only
  have h1 : (db.map (fun c => c.name ++ jsonlSfx)).length = db.length :=
    List.length_map db _
  have h2 : (List.map docSum (db.map (fun c =>
      ({ name := c.name
         flushes := flushes BATCH_SIZE c.docs
         createdIndexes := createIndexCalls c.indexes } : CollectionTransfer α)))).sum
      = (db.map (fun c => c.docs.length)).sum := by
    rw [List.map_map]
    congr 1
    apply List.map_congr_left
    intro c _
    simp [docSum, flushes_length_sum]
  rw [h1, h2]

/-- Claim C6 witness instance: the sample database round-trips. -/
theorem c6_witness :
    importDbOp { client := some { uri := "u".data, timeoutMS := 8000, connectOk := true } }
        decodeNat (some (exportDb encodeNat sampleDb "out".data).1)
      = Except.ok
          (sampleDb.map (fun c =>
            { name := c.name
              flushes := flushes BATCH_SIZE c.docs
              createdIndexes := createIndexCalls c.indexes }),
           TransferReturn.counts sampleDb.length
             ((sampleDb.map (fun c => c.docs.length)).sum)) :=
  (c6_roundtrip Nat { uri := "u".data, timeoutMS := 8000, connectOk := true }
    encodeNat decodeNat sampleDb "out".data (by decide) (by decide)).1

end MongoTools
